import Mathlib

/-!
Verification development for the zkLink Nova deployment utilities.

The TypeScript module under verification exposes a per-network deployment
ledger (`createOrGetDeployLog`), a pre-flight balance guard
(`verifyEnoughBalance`), a deployment orchestrator (`deployContract`), an
upgrade orchestrator (`upgradeContract`) and a witness authorization signer
(`getSignature`, consumed by the interact scripts).

The embedding below is a shallow one: every external effect (artifact
resolution, fee estimation, balance reads, chain submissions, implementation
pointer resolution, verification requests) is resolved by an `Env` record of
oracle outcomes, and the per-network ledger file is threaded explicitly as an
`Option Ledger` (`none` means the log file does not exist yet).  Each
orchestrator call returns its outcome, the resulting file state, and the
ordered list of chain-submitting calls it made.
-/

namespace ZkLinkDeploy

/-- Deployed addresses are opaque strings, as in the source. -/
abbrev Address := String

/-- The ledger is the parsed JSON object of a `log/<network>.log` file: a
JavaScript object, modelled as an association list in insertion order.  First
match wins on lookup, matching JS property semantics (keys are unique by
construction of `setKey`). -/
abbrev Ledger := List (String × String)

/-- Property read `deployLog[k]` on the parsed JSON object. -/
def getKey : Ledger → String → Option String
  | [], _ => none
  | (k', v') :: rest, k => if k' = k then some v' else getKey rest k

/-- Property assignment `deployLog[k] = v` on a JS object: overwrite in place
if the key exists, otherwise append (JS insertion order). -/
def setKey : Ledger → String → String → Ledger
  | [], k, v => [(k, v)]
  | (k', v') :: rest, k, v =>
    if k' = k then (k, v) :: rest else (k', v') :: setKey rest k v

/-- Key presence in the ledger. -/
def hasKey (l : Ledger) (k : String) : Bool :=
  (getKey l k).isSome

/-- Source `createOrGetDeployLog(networkName)`: read `log/<networkName>.log` if it
exists and parse it, otherwise start from the empty object `{}`.  The file
system is modelled as a map from network name to the (already parsed) stored
ledger, `none` when no file exists. -/
def createOrGetDeployLog (fsFiles : String → Option Ledger) (networkName : String) : Ledger :=
  match fsFiles networkName with
  | some deployLog => deployLog
  | none => []

/-- The fields of a loaded artifact that the orchestrators consume. -/
structure Artifact where
  contractName : String
  sourceName : String
  bytecode : String
  abi : String
deriving Repr, DecidableEq

/-- Outcome of `deployer.loadArtifact(contractArtifactName)`.  The source
catches a rejection and tests whether its message includes
`Artifact for contract "<name>" not found.`; `notFoundErr` is the case where
that test succeeds, `otherErr` carries any other rejection, which is
rethrown unmodified. -/
inductive ResolverResult where
  | found (a : Artifact)
  | notFoundErr
  | otherErr (msg : String)
deriving Repr, DecidableEq

/-- The `DeployContractOptions` bag.  An absent `options` argument is the
record with all defaults. -/
structure DeployContractOptions where
  silent : Bool := false
  noVerify : Bool := false
  upgradable : Bool := false
  kind : Option String := none
  unsafeAllow : List String := []
deriving Repr, DecidableEq

/-- The chain-submitting calls an orchestration can make. -/
inductive ChainCall where
  | deploy
  | deployProxy
  | upgradeProxy
deriving Repr, DecidableEq

/-- The distinct failures an orchestration call can throw.  Each constructor
corresponds to a distinct thrown value in the source (thrown strings or
`Error`s); `resolverError`, `chainError` and `verificationError` carry the
underlying message, propagated unmodified. -/
inductive DeployError where
  | artifactNotFound (msg : String)
  | resolverError (msg : String)
  | insufficientBalance (required : Nat) (available : Nat)
  | chainError (msg : String)
  | proxyNotFound
  | upgradeRequiresUpgradableFlag
  | verificationError (msg : String)
deriving Repr, DecidableEq

/-- A returned contract handle: the address it is bound to and its ABI. -/
structure Contract where
  address : Address
  abi : String
deriving Repr, DecidableEq

/-- The oracle of all external outcomes for one orchestration call.  Balances
and fees are Nat wei amounts (`bigint` in the source, always non-negative). -/
structure Env where
  resolver : ResolverResult
  deploymentFee : Nat
  balance : Nat
  deployResult : Except String Address
  deployProxyResult : Except String Address
  upgradeProxyResult : Except String Unit
  implOf : Address → Address
  verifyURL : Bool
  verifyResult : Except String Nat

/-- Result of an orchestration call: the returned handle or the thrown error,
the network log file afterwards, and the chain-submitting calls made. -/
structure Outcome where
  result : Except DeployError Contract
  file : Option Ledger
  calls : List ChainCall
deriving Repr

/-- Source `verifyEnoughBalance(wallet, amount)`: throw when `balance < amount`,
reporting the required amount and the available balance. -/
def verifyEnoughBalance (balance : Nat) (amount : Nat) : Except DeployError Unit :=
  if balance < amount then
    Except.error (DeployError.insufficientBalance amount balance)
  else
    Except.ok ()

/-- The string thrown by `deployContract` for a missing artifact. -/
def deployArtifactHint : String :=
  "⛔️ Please make sure you have compiled your contracts or specified the correct contract name!"

/-- The string thrown by `upgradeContract` for a missing artifact (same text,
without the ⛔️ prefix). -/
def upgradeArtifactHint : String :=
  "Please make sure you have compiled your contracts or specified the correct contract name!"

/-- Source `deployContract(contractArtifactName, constructorArguments, options,
initializerArguments)`.  `fileBefore` is the state of `log/<network>.log`
before the call.  Steps, in source order: read the log, load the artifact,
estimate the fee, check the balance, deploy (proxy path if
`options.upgradable`), record `contractName -> address` (plus
`contractName_Implementation` in proxy mode), write the log file, then —
unless `options.noVerify` or no `verifyURL` is configured — await the
verification request, whose rejection is not caught. -/
def deployContract (env : Env) (options : DeployContractOptions)
    (fileBefore : Option Ledger) : Outcome :=
  let deployLog : Ledger := fileBefore.getD []
  match env.resolver with
  | ResolverResult.notFoundErr =>
    ⟨Except.error (DeployError.artifactNotFound deployArtifactHint), fileBefore, []⟩
  | ResolverResult.otherErr m =>
    ⟨Except.error (DeployError.resolverError m), fileBefore, []⟩
  | ResolverResult.found artifact =>
    let contractName := artifact.contractName
    let deploymentFee := env.deploymentFee
    match verifyEnoughBalance env.balance deploymentFee with
    | Except.error e => ⟨Except.error e, fileBefore, []⟩
    | Except.ok _ =>
      let call := if options.upgradable then ChainCall.deployProxy else ChainCall.deploy
      let deployRes := if options.upgradable then env.deployProxyResult else env.deployResult
      match deployRes with
      | Except.error m => ⟨Except.error (DeployError.chainError m), fileBefore, [call]⟩
      | Except.ok address =>
        let log1 := setKey deployLog contractName address
        let log2 :=
          if options.upgradable then
            setKey log1 (contractName ++ "_Implementation") (env.implOf address)
          else log1
        let contract : Contract := ⟨address, artifact.abi⟩
        if !options.noVerify && env.verifyURL then
          match env.verifyResult with
          | Except.error m =>
            ⟨Except.error (DeployError.verificationError m), some log2, [call]⟩
          | Except.ok _ => ⟨Except.ok contract, some log2, [call]⟩
        else
          ⟨Except.ok contract, some log2, [call]⟩

/-- Source `upgradeContract(contractArtifactName, constructorArguments, options)`.
Steps, in source order: read the log, load the artifact, estimate the fee,
check the balance; only then, if `options.upgradable`, look up the proxy
address in the log (a missing or falsy entry throws), submit `upgradeProxy`,
re-read the implementation pointer, record
`contractName_Implementation -> implementationAddress`, write the log file,
bind the returned handle to `deployLog[contractName]`, and optionally await
verification (rejection not caught).  If `options.upgradable` is not set the
call throws only after artifact/fee/balance succeeded. -/
def upgradeContract (env : Env) (options : DeployContractOptions)
    (fileBefore : Option Ledger) : Outcome :=
  let deployLog : Ledger := fileBefore.getD []
  match env.resolver with
  | ResolverResult.notFoundErr =>
    ⟨Except.error (DeployError.artifactNotFound upgradeArtifactHint), fileBefore, []⟩
  | ResolverResult.otherErr m =>
    ⟨Except.error (DeployError.resolverError m), fileBefore, []⟩
  | ResolverResult.found artifact =>
    let contractName := artifact.contractName
    let deploymentFee := env.deploymentFee
    match verifyEnoughBalance env.balance deploymentFee with
    | Except.error e => ⟨Except.error e, fileBefore, []⟩
    | Except.ok _ =>
      if options.upgradable then
        match getKey deployLog contractName with
        | none => ⟨Except.error DeployError.proxyNotFound, fileBefore, []⟩
        | some proxyAddress =>
          if proxyAddress = "" then
            ⟨Except.error DeployError.proxyNotFound, fileBefore, []⟩
          else
            match env.upgradeProxyResult with
            | Except.error m =>
              ⟨Except.error (DeployError.chainError m), fileBefore, [ChainCall.upgradeProxy]⟩
            | Except.ok _ =>
              let implementationAddress := env.implOf proxyAddress
              let log2 :=
                setKey deployLog (contractName ++ "_Implementation") implementationAddress
              let contract : Contract :=
                ⟨(getKey log2 contractName).getD "", artifact.abi⟩
              if !options.noVerify && env.verifyURL then
                match env.verifyResult with
                | Except.error m =>
                  ⟨Except.error (DeployError.verificationError m), some log2,
                    [ChainCall.upgradeProxy]⟩
                | Except.ok _ => ⟨Except.ok contract, some log2, [ChainCall.upgradeProxy]⟩
              else
                ⟨Except.ok contract, some log2, [ChainCall.upgradeProxy]⟩
      else
        ⟨Except.error DeployError.upgradeRequiresUpgradableFlag, fileBefore, []⟩

/-- Modelled from the spec: the witness module that defines `getSignature` is
not among the sources (only its callers in the interact scripts are).  Per the
spec, the signer builds a deterministic message from `(recipient, category)`
by concatenating the recipient's address bytes with the bytes of the category
label. -/
def witnessMessage (recipient : String) (category : String) : List Char :=
  recipient.data ++ category.data

/-- A signature, modelled abstractly as the binding of the signer's public
key to the signed message (a perfect, unforgeable scheme: verification
succeeds exactly for the key/message pair that produced the signature). -/
structure WitnessSignature where
  pub : String
  msg : List Char
deriving Repr, DecidableEq

/-- The public key corresponding to a private signer key, modelled as an
injective tagging. -/
def pubOf (signerKey : String) : String :=
  "pub:" ++ signerKey

/-- Modelled from the spec: `getSignature(recipient, category, signerKey)`
signs the deterministic message with `signerKey`; it fails (`MissingSignerKey`,
here `none`) if no key is supplied and never contacts the network. -/
def getSignature (recipient : String) (category : String) (signerKey : String) :
    Option WitnessSignature :=
  if signerKey = "" then none
  else some ⟨pubOf signerKey, witnessMessage recipient category⟩

/-- Modelled from the spec: verification of a signature against a public key
and a message reproduced byte-for-byte on the verifying side. -/
def verifyWitnessSignature (pubKey : String) (msg : List Char)
    (sig : WitnessSignature) : Bool :=
  sig.pub == pubKey && sig.msg == msg

/-- The ledger invariant of the spec: an `"<n>_Implementation"` key is
present only when `"<n>"` itself is present. -/
def implImpliesBase (l : Ledger) : Prop :=
  ∀ n : String, hasKey l (n ++ "_Implementation") = true → hasKey l n = true

/-- A sample artifact for concrete instantiations. -/
def artifactFoo : Artifact :=
  { contractName := "Foo", sourceName := "contracts/Foo.sol", bytecode := "0x6080", abi := "[]" }

/-- A baseline oracle in which every external call succeeds and no
verification URL is configured. -/
def baseEnv : Env :=
  { resolver := ResolverResult.found artifactFoo
    deploymentFee := 100
    balance := 1000
    deployResult := Except.ok "0xD1"
    deployProxyResult := Except.ok "0xP2"
    upgradeProxyResult := Except.ok ()
    implOf := fun _ => "0xI2"
    verifyURL := false
    verifyResult := Except.ok 1 }

/-- An oracle whose wallet balance is below the estimated fee. -/
def envPoor : Env :=
  { baseEnv with balance := 5 }

/-- An oracle whose artifact resolution fails with the not-found message. -/
def envNoArtifact : Env :=
  { baseEnv with resolver := ResolverResult.notFoundErr }

/-- An oracle whose artifact resolution fails with an unrelated error. -/
def envResolverBoom : Env :=
  { baseEnv with resolver := ResolverResult.otherErr "boom" }

/-- An oracle with a verification URL configured whose verification request
fails. -/
def envVerifyFail : Env :=
  { baseEnv with verifyURL := true, verifyResult := Except.error "explorer down" }

/-- A file-system map with a stored ledger for exactly one network. -/
def sampleFs : String → Option Ledger :=
  fun n => if n = "zkLinkNova" then some [("Foo", "0xP1")] else none

/-- A pre-existing ledger in which `"Foo"` was earlier deployed as an
upgradable proxy, so a stale companion implementation entry is present. -/
def staleImplFile : Option Ledger :=
  some [("Foo", "0xOld"), ("Foo_Implementation", "0xI1")]

theorem getKey_setKey_self (l : Ledger) (k v : String) :
    getKey (setKey l k v) k = some v := by
  induction l with
  | nil => simp [setKey, getKey]
  | cons p rest ih =>
    obtain ⟨k', v'⟩ := p
    by_cases h : k' = k <;> simp [setKey, getKey, h, ih]

theorem getKey_setKey_ne (l : Ledger) {k k' : String} (h : k' ≠ k) (v : String) :
    getKey (setKey l k v) k' = getKey l k' := by
  induction l with
  | nil => simp [setKey, getKey, Ne.symm h]
  | cons p rest ih =>
    obtain ⟨k'', v''⟩ := p
    by_cases h1 : k'' = k
    · subst h1
      simp [setKey, getKey, Ne.symm h]
    · by_cases h2 : k'' = k' <;> simp [setKey, getKey, h1, h2, h, ih]

theorem hasKey_setKey_self (l : Ledger) (k v : String) :
    hasKey (setKey l k v) k = true := by
  simp [hasKey, getKey_setKey_self]

theorem hasKey_setKey_ne (l : Ledger) {k k' : String} (h : k' ≠ k) (v : String) :
    hasKey (setKey l k v) k' = hasKey l k' := by
  simp [hasKey, getKey_setKey_ne l h v]

theorem hasKey_setKey_mono (l : Ledger) {k k' : String} (v : String)
    (h : hasKey l k' = true) : hasKey (setKey l k v) k' = true := by
  by_cases e : k' = k
  · subst e; exact hasKey_setKey_self l k' v
  · rw [hasKey_setKey_ne l e v]; exact h

theorem string_data_inj {s t : String} (h : s.data = t.data) : s = t :=
  congrArg String.mk h

theorem append_implementation_ne (s : String) : s ++ "_Implementation" ≠ s := by
  intro h
  have hd : (s ++ "_Implementation").data = s.data := congrArg String.data h
  rw [String.data_append] at hd
  have h0 : s.data ++ "_Implementation".data = s.data ++ ([] : List Char) := by
    simp [hd]
  have h2 := List.append_cancel_left h0
  exact absurd h2 (by decide)

theorem append_implementation_inj {n m : String}
    (h : n ++ "_Implementation" = m ++ "_Implementation") : n = m := by
  have hd := congrArg String.data h
  rw [String.data_append, String.data_append] at hd
  exact string_data_inj (List.append_cancel_right hd)

/-- C1: whenever the estimated deployment fee exceeds the wallet's available
balance, `deployContract` and `upgradeContract` both fail with the
insufficient-balance error reporting the required and available amounts,
make no chain-submitting call, and leave the ledger file unchanged. -/
theorem balance_guard_blocks (env : Env) (options : DeployContractOptions)
    (fileBefore : Option Ledger) (a : Artifact)
    (hres : env.resolver = ResolverResult.found a)
    (hbal : env.balance < env.deploymentFee) :
    deployContract env options fileBefore =
      ⟨Except.error (DeployError.insufficientBalance env.deploymentFee env.balance),
        fileBefore, []⟩ ∧
    upgradeContract env options fileBefore =
      ⟨Except.error (DeployError.insufficientBalance env.deploymentFee env.balance),
        fileBefore, []⟩ := by
  constructor <;> simp [deployContract, upgradeContract, hres, verifyEnoughBalance, hbal]

/-- Witness for C1 at a concrete oracle with balance 5 and fee 100. -/
theorem balance_guard_blocks_witness :
    envPoor.resolver = ResolverResult.found artifactFoo ∧
    envPoor.balance < envPoor.deploymentFee ∧
    deployContract envPoor {} (some [("Bar", "0xB")]) =
      ⟨Except.error (DeployError.insufficientBalance 100 5), some [("Bar", "0xB")], []⟩ :=
  ⟨rfl, by decide,
    (balance_guard_blocks envPoor {} (some [("Bar", "0xB")]) artifactFoo rfl (by decide)).1⟩

/-- C4: an upgrade call with the upgradable flag set, on a name absent from
the network's ledger, fails with the proxy-not-found error, makes no chain
call, and leaves the ledger file unchanged. -/
theorem upgrade_proxy_not_found (env : Env) (options : DeployContractOptions)
    (fileBefore : Option Ledger) (a : Artifact)
    (hres : env.resolver = ResolverResult.found a)
    (hbal : ¬ env.balance < env.deploymentFee)
    (hup : options.upgradable = true)
    (hmiss : getKey (fileBefore.getD []) a.contractName = none) :
    upgradeContract env options fileBefore =
      ⟨Except.error DeployError.proxyNotFound, fileBefore, []⟩ := by
  simp [upgradeContract, hres, verifyEnoughBalance, hbal, hup, hmiss]

/-- Witness for C4 at a concrete oracle with an empty (non-existent) ledger. -/
theorem upgrade_proxy_not_found_witness :
    ¬ baseEnv.balance < baseEnv.deploymentFee ∧
    getKey (Option.getD (none : Option Ledger) []) artifactFoo.contractName = none ∧
    upgradeContract baseEnv { upgradable := true } none =
      ⟨Except.error DeployError.proxyNotFound, none, []⟩ :=
  ⟨by decide, rfl,
    upgrade_proxy_not_found baseEnv { upgradable := true } none artifactFoo rfl
      (by decide) rfl rfl⟩

/-- C7: when the resolver reports the named contract missing, both
orchestrators fail with the distinct human-readable artifact-not-found
message before any chain call; any other resolver error propagates to the
caller unmodified. -/
theorem artifact_error_distinction (env : Env) (options : DeployContractOptions)
    (fileBefore : Option Ledger) :
    (env.resolver = ResolverResult.notFoundErr →
      deployContract env options fileBefore =
        ⟨Except.error (DeployError.artifactNotFound deployArtifactHint), fileBefore, []⟩ ∧
      upgradeContract env options fileBefore =
        ⟨Except.error (DeployError.artifactNotFound upgradeArtifactHint), fileBefore, []⟩) ∧
    (∀ m : String, env.resolver = ResolverResult.otherErr m →
      deployContract env options fileBefore =
        ⟨Except.error (DeployError.resolverError m), fileBefore, []⟩ ∧
      upgradeContract env options fileBefore =
        ⟨Except.error (DeployError.resolverError m), fileBefore, []⟩) := by
  constructor
  · intro h
    constructor <;> simp [deployContract, upgradeContract, h]
  · intro m h
    constructor <;> simp [deployContract, upgradeContract, h]

/-- Witness for C7 at two concrete oracles: one artifact-not-found, one
unrelated resolver failure. -/
theorem artifact_error_distinction_witness :
    deployContract envNoArtifact {} none =
      ⟨Except.error (DeployError.artifactNotFound deployArtifactHint), none, []⟩ ∧
    upgradeContract envResolverBoom {} none =
      ⟨Except.error (DeployError.resolverError "boom"), none, []⟩ :=
  ⟨((artifact_error_distinction envNoArtifact {} none).1 rfl).1,
   ((artifact_error_distinction envResolverBoom {} none).2 "boom" rfl).2⟩

/-- C8: loading the ledger for a network yields the empty mapping when no
stored record exists, and the parsed stored mapping otherwise. -/
theorem createOrGetDeployLog_spec (fsFiles : String → Option Ledger) (networkName : String) :
    (fsFiles networkName = none → createOrGetDeployLog fsFiles networkName = []) ∧
    (∀ l : Ledger, fsFiles networkName = some l →
      createOrGetDeployLog fsFiles networkName = l) := by
  constructor
  · intro h
    simp [createOrGetDeployLog, h]
  · intro l h
    simp [createOrGetDeployLog, h]

/-- Witness for C8 at a concrete file system holding one network's log. -/
theorem createOrGetDeployLog_spec_witness :
    createOrGetDeployLog sampleFs "goerli" = [] ∧
    createOrGetDeployLog sampleFs "zkLinkNova" = [("Foo", "0xP1")] :=
  ⟨(createOrGetDeployLog_spec sampleFs "goerli").1 rfl,
   (createOrGetDeployLog_spec sampleFs "zkLinkNova").2 [("Foo", "0xP1")] rfl⟩

theorem upgradeContract_ok_inversion (env : Env) (options : DeployContractOptions)
    (fileBefore : Option Ledger) (c : Contract) (fileAfter : Option Ledger)
    (calls : List ChainCall)
    (h : upgradeContract env options fileBefore = ⟨Except.ok c, fileAfter, calls⟩) :
    ∃ a pa, env.resolver = ResolverResult.found a ∧
      options.upgradable = true ∧
      getKey (fileBefore.getD []) a.contractName = some pa ∧
      pa ≠ "" ∧
      c = ⟨pa, a.abi⟩ ∧
      fileAfter = some (setKey (fileBefore.getD [])
        (a.contractName ++ "_Implementation") (env.implOf pa)) ∧
      calls = [ChainCall.upgradeProxy] := by
  unfold upgradeContract at h
  cases hres : env.resolver with
  | notFoundErr =>
    rw [hres] at h
    simp at h
  | otherErr m =>
    rw [hres] at h
    simp at h
  | found a =>
    rw [hres] at h
    simp only [verifyEnoughBalance] at h
    by_cases hbal : env.balance < env.deploymentFee
    · rw [if_pos hbal] at h
      simp at h
    · rw [if_neg hbal] at h
      cases hup : options.upgradable with
      | false =>
        simp [hup] at h
      | true =>
        simp only [hup, if_true] at h
        cases hget : getKey (fileBefore.getD []) a.contractName with
        | none =>
          simp [hget] at h
        | some pa =>
          simp only [hget] at h
          by_cases hpa : pa = ""
          · rw [if_pos hpa] at h
            simp at h
          · rw [if_neg hpa] at h
            cases hupg : env.upgradeProxyResult with
            | error m =>
              simp [hupg] at h
            | ok u =>
              simp only [hupg] at h
              have hgk : getKey (setKey (fileBefore.getD [])
                  (a.contractName ++ "_Implementation") (env.implOf pa))
                  a.contractName = some pa := by
                rw [getKey_setKey_ne _ (Ne.symm (append_implementation_ne _)) _]
                exact hget
              cases hv : (!options.noVerify && env.verifyURL) with
              | false =>
                simp only [hv, Bool.false_eq_true, if_false] at h
                rw [hgk] at h
                simp only [Outcome.mk.injEq, Except.ok.injEq] at h
                obtain ⟨h1, h2, h3⟩ := h
                exact ⟨a, pa, rfl, rfl, hget, hpa, h1.symm, h2.symm, h3.symm⟩
              | true =>
                simp only [hv, if_true] at h
                cases hver : env.verifyResult with
                | error m =>
                  simp [hver] at h
                | ok n =>
                  simp only [hver] at h
                  rw [hgk] at h
                  simp only [Outcome.mk.injEq, Except.ok.injEq] at h
                  obtain ⟨h1, h2, h3⟩ := h
                  exact ⟨a, pa, rfl, rfl, hget, hpa, h1.symm, h2.symm, h3.symm⟩

theorem deployContract_ok_inversion (env : Env) (options : DeployContractOptions)
    (fileBefore : Option Ledger) (c : Contract) (fileAfter : Option Ledger)
    (calls : List ChainCall)
    (h : deployContract env options fileBefore = ⟨Except.ok c, fileAfter, calls⟩) :
    ∃ a address, env.resolver = ResolverResult.found a ∧
      ¬ env.balance < env.deploymentFee ∧
      (if options.upgradable then env.deployProxyResult else env.deployResult)
        = Except.ok address ∧
      c = ⟨address, a.abi⟩ ∧
      fileAfter = some (if options.upgradable then
          setKey (setKey (fileBefore.getD []) a.contractName address)
            (a.contractName ++ "_Implementation") (env.implOf address)
        else setKey (fileBefore.getD []) a.contractName address) ∧
      calls = [if options.upgradable then ChainCall.deployProxy else ChainCall.deploy] := by
  unfold deployContract at h
  cases hres : env.resolver with
  | notFoundErr =>
    rw [hres] at h
    simp at h
  | otherErr m =>
    rw [hres] at h
    simp at h
  | found a =>
    rw [hres] at h
    simp only [verifyEnoughBalance] at h
    by_cases hbal : env.balance < env.deploymentFee
    · rw [if_pos hbal] at h
      simp at h
    · rw [if_neg hbal] at h
      cases hup : options.upgradable with
      | false =>
        simp only [hup, Bool.false_eq_true, if_false] at h
        cases hdep : env.deployResult with
        | error m =>
          simp [hdep] at h
        | ok address =>
          simp only [hdep] at h
          cases hv : (!options.noVerify && env.verifyURL) with
          | false =>
            simp only [hv, Bool.false_eq_true, if_false] at h
            simp only [Outcome.mk.injEq, Except.ok.injEq] at h
            obtain ⟨h1, h2, h3⟩ := h
            exact ⟨a, address, rfl, hbal, by simp, h1.symm, h2.symm, h3.symm⟩
          | true =>
            simp only [hv, if_true] at h
            cases hver : env.verifyResult with
            | error m =>
              simp [hver] at h
            | ok n =>
              simp only [hver] at h
              simp only [Outcome.mk.injEq, Except.ok.injEq] at h
              obtain ⟨h1, h2, h3⟩ := h
              exact ⟨a, address, rfl, hbal, by simp, h1.symm, h2.symm, h3.symm⟩
      | true =>
        simp only [hup, if_true] at h
        cases hdep : env.deployProxyResult with
        | error m =>
          simp [hdep] at h
        | ok address =>
          simp only [hdep] at h
          cases hv : (!options.noVerify && env.verifyURL) with
          | false =>
            simp only [hv, Bool.false_eq_true, if_false] at h
            simp only [Outcome.mk.injEq, Except.ok.injEq] at h
            obtain ⟨h1, h2, h3⟩ := h
            exact ⟨a, address, rfl, hbal, by simp, h1.symm, h2.symm, h3.symm⟩
          | true =>
            simp only [hv, if_true] at h
            cases hver : env.verifyResult with
            | error m =>
              simp [hver] at h
            | ok n =>
              simp only [hver] at h
              simp only [Outcome.mk.injEq, Except.ok.injEq] at h
              obtain ⟨h1, h2, h3⟩ := h
              exact ⟨a, address, rfl, hbal, by simp, h1.symm, h2.symm, h3.symm⟩

theorem foo_not_impl_form (m : String) :
    artifactFoo.contractName ≠ m ++ "_Implementation" := by
  intro h
  have hd := congrArg String.data h
  rw [String.data_append] at hd
  have hlen := congrArg List.length hd
  rw [List.length_append] at hlen
  have h3 : (artifactFoo.contractName.data).length = 3 := by decide
  have h15 : ("_Implementation".data).length = 15 := by decide
  omega

theorem fooLedgerInv : implImpliesBase [("Foo", "0xP1")] := by
  intro n h
  by_cases e : ("Foo" : String) = n ++ "_Implementation"
  · exact absurd e (foo_not_impl_form n)
  · simp [hasKey, getKey, e] at h

/-- C3: for every successful `upgradeContract` call, the ledger entry for
the contract name (the proxy address) is unchanged, the companion
implementation entry is set to the newly resolved implementation address,
and the returned contract handle is bound to the unchanged proxy address. -/
theorem upgrade_proxy_stability (env : Env) (options : DeployContractOptions)
    (fileBefore : Option Ledger) (c : Contract) (fileAfter : Option Ledger)
    (calls : List ChainCall)
    (h : upgradeContract env options fileBefore = ⟨Except.ok c, fileAfter, calls⟩) :
    ∃ a pa, env.resolver = ResolverResult.found a ∧
      getKey (fileBefore.getD []) a.contractName = some pa ∧
      c.address = pa ∧
      ∃ l, fileAfter = some l ∧
        getKey l a.contractName = some pa ∧
        getKey l (a.contractName ++ "_Implementation") = some (env.implOf pa) := by
  obtain ⟨a, pa, hres, hup, hget, hpa, hc, hfile, hcalls⟩ :=
    upgradeContract_ok_inversion env options fileBefore c fileAfter calls h
  refine ⟨a, pa, hres, hget, by rw [hc], ?_⟩
  refine ⟨_, hfile, ?_, ?_⟩
  · rw [getKey_setKey_ne _ (Ne.symm (append_implementation_ne _)) _]
    exact hget
  · exact getKey_setKey_self _ _ _

/-- Witness for C3: a concrete successful upgrade over a one-entry ledger. -/
theorem upgrade_proxy_stability_witness :
    upgradeContract baseEnv { upgradable := true } (some [("Foo", "0xP1")]) =
      ⟨Except.ok ⟨"0xP1", "[]"⟩,
        some [("Foo", "0xP1"), ("Foo_Implementation", "0xI2")],
        [ChainCall.upgradeProxy]⟩ ∧
    (∃ a pa, baseEnv.resolver = ResolverResult.found a ∧
      getKey ((some [("Foo", "0xP1")] : Option Ledger).getD []) a.contractName = some pa ∧
      (⟨"0xP1", "[]"⟩ : Contract).address = pa ∧
      ∃ l, (some [("Foo", "0xP1"), ("Foo_Implementation", "0xI2")] : Option Ledger)
          = some l ∧
        getKey l a.contractName = some pa ∧
        getKey l (a.contractName ++ "_Implementation") = some (baseEnv.implOf pa)) :=
  ⟨rfl, upgrade_proxy_stability baseEnv { upgradable := true } (some [("Foo", "0xP1")])
    ⟨"0xP1", "[]"⟩ (some [("Foo", "0xP1"), ("Foo_Implementation", "0xI2")])
    [ChainCall.upgradeProxy] rfl⟩

/-- C10: every successful `deployContract` or `upgradeContract` call
preserves every pre-existing ledger entry whose key is neither the deployed
contract's name nor its companion implementation key. -/
theorem ledger_frame_preservation (env : Env) (options : DeployContractOptions)
    (fileBefore : Option Ledger) (a : Artifact) (k : String)
    (hres : env.resolver = ResolverResult.found a)
    (hk1 : k ≠ a.contractName)
    (hk2 : k ≠ a.contractName ++ "_Implementation") :
    (∀ c fileAfter calls,
      deployContract env options fileBefore = ⟨Except.ok c, fileAfter, calls⟩ →
      ∃ l, fileAfter = some l ∧ getKey l k = getKey (fileBefore.getD []) k) ∧
    (∀ c fileAfter calls,
      upgradeContract env options fileBefore = ⟨Except.ok c, fileAfter, calls⟩ →
      ∃ l, fileAfter = some l ∧ getKey l k = getKey (fileBefore.getD []) k) := by
  constructor
  · intro c fileAfter calls h
    obtain ⟨a', address, hres', hbal, hdep, hc, hfile, hcalls⟩ :=
      deployContract_ok_inversion env options fileBefore c fileAfter calls h
    rw [hres] at hres'
    injection hres' with haa
    subst haa
    refine ⟨_, hfile, ?_⟩
    cases hup : options.upgradable with
    | false =>
      simp only [hup, Bool.false_eq_true, if_false]
      rw [getKey_setKey_ne _ hk1 _]
    | true =>
      simp only [hup, if_true]
      rw [getKey_setKey_ne _ hk2 _, getKey_setKey_ne _ hk1 _]
  · intro c fileAfter calls h
    obtain ⟨a', pa, hres', hup, hget, hpa, hc, hfile, hcalls⟩ :=
      upgradeContract_ok_inversion env options fileBefore c fileAfter calls h
    rw [hres] at hres'
    injection hres' with haa
    subst haa
    refine ⟨_, hfile, ?_⟩
    rw [getKey_setKey_ne _ hk2 _]

/-- Witness for C10: the entry for `"Bar"` survives a concrete deploy of
`"Foo"` and a concrete upgrade of `"Foo"`. -/
theorem ledger_frame_preservation_witness :
    (∃ l, (some [("Bar", "0xB"), ("Foo", "0xD1")] : Option Ledger) = some l ∧
      getKey l "Bar" = getKey ((some [("Bar", "0xB")] : Option Ledger).getD []) "Bar") ∧
    (∃ l, (some [("Bar", "0xB"), ("Foo", "0xP1"), ("Foo_Implementation", "0xI2")] :
        Option Ledger) = some l ∧
      getKey l "Bar"
        = getKey ((some [("Bar", "0xB"), ("Foo", "0xP1")] : Option Ledger).getD []) "Bar") :=
  ⟨(ledger_frame_preservation baseEnv {} (some [("Bar", "0xB")]) artifactFoo "Bar"
      rfl (by decide) (by decide)).1
      ⟨"0xD1", "[]"⟩ (some [("Bar", "0xB"), ("Foo", "0xD1")]) [ChainCall.deploy] rfl,
   (ledger_frame_preservation baseEnv { upgradable := true }
      (some [("Bar", "0xB"), ("Foo", "0xP1")]) artifactFoo "Bar"
      rfl (by decide) (by decide)).2
      ⟨"0xP1", "[]"⟩
      (some [("Bar", "0xB"), ("Foo", "0xP1"), ("Foo_Implementation", "0xI2")])
      [ChainCall.upgradeProxy] rfl⟩

/-- Counterexample to C2 as stated: with `noVerify` unset, a verification
URL configured and the deployment itself already succeeded and recorded, the
verification failure is rethrown to the caller instead of being suppressed —
the call's result is the verification error, not a contract handle. -/
theorem verification_failure_cex :
    (deployContract envVerifyFail {} none).result =
      Except.error (DeployError.verificationError "explorer down") ∧
    (deployContract envVerifyFail {} none).file = some [("Foo", "0xD1")] :=
  ⟨rfl, rfl⟩

/-- C2 (amended): when a deployment has succeeded and written the ledger,
with `options.noVerify` unset and a verification URL configured, a failure
of the verification request propagates to the caller as the call's error;
the ledger entry written for the deployment is unaffected — the file still
maps the contract name to the deployed address. -/
theorem verification_failure_propagates (env : Env) (options : DeployContractOptions)
    (fileBefore : Option Ledger) (a : Artifact) (address : Address) (m : String)
    (hres : env.resolver = ResolverResult.found a)
    (hbal : ¬ env.balance < env.deploymentFee)
    (hdep : (if options.upgradable then env.deployProxyResult else env.deployResult)
      = Except.ok address)
    (hnv : options.noVerify = false)
    (hvu : env.verifyURL = true)
    (hver : env.verifyResult = Except.error m) :
    ∃ l, deployContract env options fileBefore =
        ⟨Except.error (DeployError.verificationError m), some l,
          [if options.upgradable then ChainCall.deployProxy else ChainCall.deploy]⟩ ∧
      getKey l a.contractName = some address := by
  cases hup : options.upgradable with
  | false =>
    simp only [hup, Bool.false_eq_true, if_false] at hdep ⊢
    refine ⟨setKey (fileBefore.getD []) a.contractName address, ?_,
      getKey_setKey_self _ _ _⟩
    simp [deployContract, hres, verifyEnoughBalance, hbal, hup, hdep, hnv, hvu, hver]
  | true =>
    simp only [hup, if_true] at hdep ⊢
    refine ⟨setKey (setKey (fileBefore.getD []) a.contractName address)
      (a.contractName ++ "_Implementation") (env.implOf address), ?_, ?_⟩
    · simp [deployContract, hres, verifyEnoughBalance, hbal, hup, hdep, hnv, hvu, hver]
    · rw [getKey_setKey_ne _ (Ne.symm (append_implementation_ne _)) _]
      exact getKey_setKey_self _ _ _

/-- Witness for C2 (amended) at a concrete failing verification oracle. -/
theorem verification_failure_propagates_witness :
    ∃ l, deployContract envVerifyFail {} none =
        ⟨Except.error (DeployError.verificationError "explorer down"), some l,
          [if ({} : DeployContractOptions).upgradable then ChainCall.deployProxy
            else ChainCall.deploy]⟩ ∧
      getKey l artifactFoo.contractName = some "0xD1" :=
  verification_failure_propagates envVerifyFail {} none artifactFoo "0xD1"
    "explorer down" rfl (by decide) rfl rfl rfl rfl

/-- Counterexample to C5 as stated: with `options.upgradable` unset, the
missing-flag failure is not the call's first step — artifact resolution runs
first, so a call whose artifact is missing fails with the artifact-not-found
error instead of the upgradable-flag error. -/
theorem upgradable_flag_not_first_cex :
    (upgradeContract envNoArtifact {} none).result =
      Except.error (DeployError.artifactNotFound upgradeArtifactHint) ∧
    ¬ (upgradeContract envNoArtifact {} none).result =
      Except.error DeployError.upgradeRequiresUpgradableFlag := by
  refine ⟨rfl, ?_⟩
  intro hcontra
  rw [show (upgradeContract envNoArtifact {} none).result =
      Except.error (DeployError.artifactNotFound upgradeArtifactHint) from rfl] at hcontra
  simp at hcontra

/-- C5 (amended): an `upgradeContract` call without the upgradable flag
fails with the upgrade-requires-upgradable-flag error, making no chain
submission and leaving the ledger file unchanged — but the check runs only
after artifact resolution, fee estimation and the balance guard succeed,
not as the call's first step. -/
theorem upgradable_flag_required (env : Env) (options : DeployContractOptions)
    (fileBefore : Option Ledger) (a : Artifact)
    (hres : env.resolver = ResolverResult.found a)
    (hbal : ¬ env.balance < env.deploymentFee)
    (hup : options.upgradable = false) :
    upgradeContract env options fileBefore =
      ⟨Except.error DeployError.upgradeRequiresUpgradableFlag, fileBefore, []⟩ := by
  simp [upgradeContract, hres, verifyEnoughBalance, hbal, hup]

/-- Witness for C5 (amended) at a concrete oracle. -/
theorem upgradable_flag_required_witness :
    ¬ baseEnv.balance < baseEnv.deploymentFee ∧
    upgradeContract baseEnv {} (some [("Foo", "0xP1")]) =
      ⟨Except.error DeployError.upgradeRequiresUpgradableFlag,
        some [("Foo", "0xP1")], []⟩ :=
  ⟨by decide, upgradable_flag_required baseEnv {} (some [("Foo", "0xP1")]) artifactFoo
    rfl (by decide) rfl⟩

/-- Counterexample to C6 as stated: a successful non-upgradable redeploy of
`"Foo"` over a ledger already holding `"Foo_Implementation"` leaves that key
present, so the companion key is present although the deployment was not
upgradable. -/
theorem deploy_impl_key_iff_cex :
    (deployContract baseEnv {} staleImplFile).result = Except.ok ⟨"0xD1", "[]"⟩ ∧
    (deployContract baseEnv {} staleImplFile).file =
      some [("Foo", "0xD1"), ("Foo_Implementation", "0xI1")] ∧
    hasKey [("Foo", "0xD1"), ("Foo_Implementation", "0xI1")]
      ("Foo" ++ "_Implementation") = true :=
  ⟨rfl, rfl, rfl⟩

/-- C6 (amended): after every successful `deployContract` call the ledger
maps the contract name to the deployed address; the companion implementation
key is set when the deployment was upgradable, and otherwise its presence is
exactly its presence before the call (a stale companion entry survives a
fresh redeploy).  For contract names not themselves of the form
`<m>_Implementation`, the invariant that an implementation key is present
only when its base name is present is preserved by every successful
`deployContract` and `upgradeContract` call. -/
theorem ledger_after_deploy_invariant (env : Env) (options : DeployContractOptions)
    (fileBefore : Option Ledger) (a : Artifact)
    (hres : env.resolver = ResolverResult.found a)
    (hinv : implImpliesBase (fileBefore.getD []))
    (hname : ∀ m : String, a.contractName ≠ m ++ "_Implementation") :
    (∀ c fileAfter calls,
      deployContract env options fileBefore = ⟨Except.ok c, fileAfter, calls⟩ →
      ∃ l, fileAfter = some l ∧
        getKey l a.contractName = some c.address ∧
        (options.upgradable = true →
          getKey l (a.contractName ++ "_Implementation")
            = some (env.implOf c.address)) ∧
        (options.upgradable = false →
          hasKey l (a.contractName ++ "_Implementation")
            = hasKey (fileBefore.getD []) (a.contractName ++ "_Implementation")) ∧
        implImpliesBase l) ∧
    (∀ c fileAfter calls,
      upgradeContract env options fileBefore = ⟨Except.ok c, fileAfter, calls⟩ →
      ∃ l, fileAfter = some l ∧ implImpliesBase l) := by
  constructor
  · intro c fileAfter calls h
    obtain ⟨a', address, hres', hbal, hdep, hc, hfile, hcalls⟩ :=
      deployContract_ok_inversion env options fileBefore c fileAfter calls h
    rw [hres] at hres'
    injection hres' with haa
    subst haa
    subst hc
    cases hup : options.upgradable with
    | false =>
      simp only [hup, Bool.false_eq_true, if_false] at hfile
      refine ⟨_, hfile, getKey_setKey_self _ _ _, ?_, ?_, ?_⟩
      · intro hcontra
        exact absurd hcontra (by simp)
      · intro _
        rw [hasKey_setKey_ne _ (append_implementation_ne _) _]
      · intro n hn
        by_cases e : n ++ "_Implementation" = a.contractName
        · exact absurd e.symm (hname n)
        · rw [hasKey_setKey_ne _ e _] at hn
          exact hasKey_setKey_mono _ _ (hinv n hn)
    | true =>
      simp only [hup, if_true] at hfile
      refine ⟨_, hfile, ?_, ?_, ?_, ?_⟩
      · rw [getKey_setKey_ne _ (Ne.symm (append_implementation_ne _)) _]
        exact getKey_setKey_self _ _ _
      · intro _
        exact getKey_setKey_self _ _ _
      · intro hcontra
        exact absurd hcontra (by simp)
      · intro n hn
        by_cases e : n ++ "_Implementation" = a.contractName ++ "_Implementation"
        · have hna : n = a.contractName := append_implementation_inj e
          subst hna
          exact hasKey_setKey_mono _ _ (hasKey_setKey_self _ _ _)
        · rw [hasKey_setKey_ne _ e _] at hn
          by_cases e2 : n ++ "_Implementation" = a.contractName
          · exact absurd e2.symm (hname n)
          · rw [hasKey_setKey_ne _ e2 _] at hn
            exact hasKey_setKey_mono _ _ (hasKey_setKey_mono _ _ (hinv n hn))
  · intro c fileAfter calls h
    obtain ⟨a', pa, hres', hup, hget, hpa, hc, hfile, hcalls⟩ :=
      upgradeContract_ok_inversion env options fileBefore c fileAfter calls h
    rw [hres] at hres'
    injection hres' with haa
    subst haa
    refine ⟨_, hfile, ?_⟩
    intro n hn
    by_cases e : n ++ "_Implementation" = a.contractName ++ "_Implementation"
    · have hna : n = a.contractName := append_implementation_inj e
      subst hna
      refine hasKey_setKey_mono _ _ ?_
      simp [hasKey, hget]
    · rw [hasKey_setKey_ne _ e _] at hn
      exact hasKey_setKey_mono _ _ (hinv n hn)

/-- Witness for C6 (amended): a concrete fresh deploy onto an empty ledger
and a concrete upgrade of an existing proxy. -/
theorem ledger_after_deploy_invariant_witness :
    (∃ l, (some [("Foo", "0xD1")] : Option Ledger) = some l ∧
      getKey l artifactFoo.contractName = some (Contract.mk "0xD1" "[]").address ∧
      (({} : DeployContractOptions).upgradable = true →
        getKey l (artifactFoo.contractName ++ "_Implementation")
          = some (baseEnv.implOf (Contract.mk "0xD1" "[]").address)) ∧
      (({} : DeployContractOptions).upgradable = false →
        hasKey l (artifactFoo.contractName ++ "_Implementation")
          = hasKey ((none : Option Ledger).getD [])
              (artifactFoo.contractName ++ "_Implementation")) ∧
      implImpliesBase l) ∧
    (∃ l, (some [("Foo", "0xP1"), ("Foo_Implementation", "0xI2")] : Option Ledger)
        = some l ∧ implImpliesBase l) := by
  constructor
  · exact (ledger_after_deploy_invariant baseEnv {} none artifactFoo rfl
      (fun n hn => by simp [hasKey, getKey] at hn) foo_not_impl_form).1
      ⟨"0xD1", "[]"⟩ (some [("Foo", "0xD1")]) [ChainCall.deploy] rfl
  · exact (ledger_after_deploy_invariant baseEnv { upgradable := true }
      (some [("Foo", "0xP1")]) artifactFoo rfl fooLedgerInv foo_not_impl_form).2
      ⟨"0xP1", "[]"⟩ (some [("Foo", "0xP1"), ("Foo_Implementation", "0xI2")])
      [ChainCall.upgradeProxy] rfl

/-- C9: for any fixed recipient, category and non-empty signer key, the
signature produced by `getSignature` verifies against the deterministic
message built from the same recipient and category under the corresponding
public key, and fails verification against the message built with any other
category. -/
theorem getSignature_verification (recipient category otherCategory signerKey : String)
    (hk : signerKey ≠ "")
    (hc : category ≠ otherCategory) :
    ∃ sig, getSignature recipient category signerKey = some sig ∧
      verifyWitnessSignature (pubOf signerKey)
        (witnessMessage recipient category) sig = true ∧
      verifyWitnessSignature (pubOf signerKey)
        (witnessMessage recipient otherCategory) sig = false := by
  refine ⟨⟨pubOf signerKey, witnessMessage recipient category⟩, ?_, ?_, ?_⟩
  · simp [getSignature, hk]
  · simp [verifyWitnessSignature]
  · have hmsg : witnessMessage recipient category ≠ witnessMessage recipient otherCategory := by
      intro e
      exact hc (string_data_inj (List.append_cancel_left e))
    simp [verifyWitnessSignature, hmsg]

/-- Witness for C9 at a concrete recipient, two concrete campaign labels and
a concrete key. -/
theorem getSignature_verification_witness :
    ("0xkey1" : String) ≠ "" ∧
    ("NOVA-SBT-1" : String) ≠ "NOVA-TradeMark-1" ∧
    (∃ sig, getSignature "0xe269B18099A71599994312757fEf8DEBE7518C31"
        "NOVA-SBT-1" "0xkey1" = some sig ∧
      verifyWitnessSignature (pubOf "0xkey1")
        (witnessMessage "0xe269B18099A71599994312757fEf8DEBE7518C31" "NOVA-SBT-1")
        sig = true ∧
      verifyWitnessSignature (pubOf "0xkey1")
        (witnessMessage "0xe269B18099A71599994312757fEf8DEBE7518C31" "NOVA-TradeMark-1")
        sig = false) :=
  ⟨by decide, by decide,
    getSignature_verification "0xe269B18099A71599994312757fEf8DEBE7518C31"
      "NOVA-SBT-1" "NOVA-TradeMark-1" "0xkey1" (by decide) (by decide)⟩

end ZkLinkDeploy
